import Mathlib

/-!
Verification development for the interest-rate playground repository.

The embedding covers:
* `src/src/lib/finance.ts` — the four pure calculator functions, modelled over
  an explicit JavaScript-number domain `JsNum` (NaN, signed infinities, and
  finite values idealised as exact rationals);
* `src/src/app/bank-rate/ImpactCalculators.tsx` — the credit-card payoff
  simulation loop, modelled over exact rationals;
* `src/src/app/api/boe/bank-rate/route.ts` — the series normalizer
  (`extractValue`, `parseDataPoints`, `getChangesOnly`, `findCubesRecursive`),
  modelled over a generic parsed-document tree `JVal`.

Finite floating-point arithmetic is idealised as exact rational arithmetic;
the special values NaN and ±Infinity and their propagation rules are modelled
explicitly where the guards in the code depend on them.
-/

namespace IRP

/-- A JavaScript number: NaN, a signed infinity, or a finite value
(idealised as an exact rational; IEEE rounding is not modelled). -/
inductive JsNum
  | nan
  | inf (pos : Bool)
  | fin (q : ℚ)
deriving DecidableEq

/-- JavaScript `isNaN` on the modelled domain. -/
def JsNum.isNaN : JsNum → Bool
  | .nan => true
  | _ => false

/-- JavaScript `<` (false whenever either operand is NaN). -/
def jsLt : JsNum → JsNum → Bool
  | .nan, _ => false
  | _, .nan => false
  | .inf p, .inf q => !p && q
  | .inf p, .fin _ => !p
  | .fin _, .inf q => q
  | .fin a, .fin b => decide (a < b)

/-- JavaScript `===` on numbers (false whenever either operand is NaN). -/
def jsEqb : JsNum → JsNum → Bool
  | .fin a, .fin b => decide (a = b)
  | .inf p, .inf q => p == q
  | _, _ => false

/-- JavaScript addition with NaN/infinity propagation. -/
def jsAdd : JsNum → JsNum → JsNum
  | .nan, _ => .nan
  | _, .nan => .nan
  | .inf p, .inf q => if p = q then .inf p else .nan
  | .inf p, .fin _ => .inf p
  | .fin _, .inf q => .inf q
  | .fin a, .fin b => .fin (a + b)

/-- JavaScript subtraction with NaN/infinity propagation. -/
def jsSub : JsNum → JsNum → JsNum
  | .nan, _ => .nan
  | _, .nan => .nan
  | .inf p, .inf q => if p = q then .nan else .inf p
  | .inf p, .fin _ => .inf p
  | .fin _, .inf q => .inf (!q)
  | .fin a, .fin b => .fin (a - b)

/-- JavaScript multiplication; `±Infinity * 0 = NaN`, signs multiply. -/
def jsMul : JsNum → JsNum → JsNum
  | .nan, _ => .nan
  | _, .nan => .nan
  | .inf p, .inf q => .inf (p == q)
  | .inf p, .fin b => if b = 0 then .nan else .inf (p == decide (0 < b))
  | .fin a, .inf q => if a = 0 then .nan else .inf (q == decide (0 < a))
  | .fin a, .fin b => .fin (a * b)

/-- JavaScript division.  The rational model has a single zero, treated as
IEEE `+0`: `x / 0` is a signed infinity for `x ≠ 0` and `0 / 0 = NaN`. -/
def jsDiv : JsNum → JsNum → JsNum
  | .nan, _ => .nan
  | _, .nan => .nan
  | .inf _, .inf _ => .nan
  | .inf p, .fin b => .inf (p == decide (0 ≤ b))
  | .fin _, .inf _ => .fin 0
  | .fin a, .fin b =>
    if b = 0 then (if a = 0 then .nan else .inf (decide (0 < a)))
    else .fin (a / b)

/-- JavaScript `Math.pow` following the ECMAScript `Number::exponentiate`
special-case ladder.  For a finite base and a finite integer exponent the
result is the exact rational power.  A finite non-integer exponent on a
negative base yields NaN exactly as in JavaScript; on a non-negative base
the true value is irrational, hence not representable in the rational
embedding — that branch also returns NaN and is not evaluated by any
theorem below. -/
def jsPow (base expnt : JsNum) : JsNum :=
  match expnt with
  | .nan => .nan
  | .inf ep =>
    match base with
    | .nan => .nan
    | .inf _ => if ep then .inf true else .fin 0
    | .fin b =>
      if 1 < |b| then (if ep then .inf true else .fin 0)
      else if |b| = 1 then .nan
      else (if ep then .fin 0 else .inf true)
  | .fin e =>
    if e = 0 then .fin 1
    else
      match base with
      | .nan => .nan
      | .inf bp =>
        if bp then (if 0 < e then .inf true else .fin 0)
        else
          if 0 < e then
            (if e.den = 1 ∧ e.num % 2 = 1 then .inf false else .inf true)
          else .fin 0
      | .fin b =>
        if b = 0 then (if 0 < e then .fin 0 else .inf true)
        else if e.den = 1 then .fin (b ^ e.num)
        else .nan

/-- Model of `monthlyPaymentAmortised` from `src/src/lib/finance.ts` (lines 17-48). -/
def monthlyPaymentAmortised (principal annualRatePct years : JsNum) : JsNum :=
  if jsLt principal (.fin 0) || jsLt annualRatePct (.fin 0) || jsLt years (.fin 0) then .fin 0
  else if principal.isNaN || annualRatePct.isNaN || years.isNaN then .fin 0
  else if jsEqb principal (.fin 0) || jsEqb years (.fin 0) then .fin 0
  else if jsEqb annualRatePct (.fin 0) then jsDiv principal (jsMul years (.fin 12))
  else
    let monthlyRate := jsDiv (jsDiv annualRatePct (.fin 100)) (.fin 12)
    let numMonths := jsMul years (.fin 12)
    let numerator := jsMul (jsMul principal monthlyRate) (jsPow (jsAdd (.fin 1) monthlyRate) numMonths)
    let denominator := jsSub (jsPow (jsAdd (.fin 1) monthlyRate) numMonths) (.fin 1)
    if jsEqb denominator (.fin 0) then .fin 0
    else jsDiv numerator denominator

/-- Model of `monthlyPaymentInterestOnly` from `src/src/lib/finance.ts` (lines 59-76). -/
def monthlyPaymentInterestOnly (principal annualRatePct : JsNum) : JsNum :=
  if jsLt principal (.fin 0) || jsLt annualRatePct (.fin 0) then .fin 0
  else if principal.isNaN || annualRatePct.isNaN then .fin 0
  else if jsEqb principal (.fin 0) then .fin 0
  else jsMul principal (jsDiv (jsDiv annualRatePct (.fin 100)) (.fin 12))

/-- Model of `savingsCompoundMonthly` from `src/src/lib/finance.ts` (lines 88-106). -/
def savingsCompoundMonthly (balance annualRatePct months : JsNum) : JsNum :=
  if jsLt balance (.fin 0) || jsLt annualRatePct (.fin 0) || jsLt months (.fin 0) then balance
  else if balance.isNaN || annualRatePct.isNaN || months.isNaN then balance
  else if jsEqb months (.fin 0) then balance
  else
    jsMul balance (jsPow (jsAdd (.fin 1) (jsDiv (jsDiv annualRatePct (.fin 100)) (.fin 12))) months)

/-- Model of `savingsSimple` from `src/src/lib/finance.ts` (lines 118-136). -/
def savingsSimple (balance annualRatePct months : JsNum) : JsNum :=
  if jsLt balance (.fin 0) || jsLt annualRatePct (.fin 0) || jsLt months (.fin 0) then balance
  else if balance.isNaN || annualRatePct.isNaN || months.isNaN then balance
  else if jsEqb months (.fin 0) then balance
  else
    jsMul balance (jsAdd (.fin 1) (jsMul (jsDiv (jsDiv annualRatePct (.fin 100)) (.fin 12)) months))

/-- Result record of the credit-card branch of `loanResults` in
`src/src/app/bank-rate/ImpactCalculators.tsx` (mode tag omitted). -/
structure CCResult where
  monthsToRepay : Option ℕ
  totalInterest : ℚ
  willNotRepay : Bool
deriving DecidableEq

/-- The `while` loop of the credit-card payoff simulation
(`ImpactCalculators.tsx` lines 314-337), with the loop-carried state as
arguments.  `maxMonths = 600`; finite float arithmetic is idealised as
exact rational arithmetic (`0.01` is `1/100`). -/
def ccLoop (monthlyRate monthlyRepayment currentBalance totalInterest : ℚ)
    (months : ℕ) : CCResult :=
  if h : 1/100 < currentBalance ∧ months < 600 then
    let monthlyInterest := currentBalance * monthlyRate
    let ti := totalInterest + monthlyInterest
    if monthlyRepayment ≤ monthlyInterest then ⟨none, ti, true⟩
    else ccLoop monthlyRate monthlyRepayment
      (currentBalance + monthlyInterest - monthlyRepayment) ti (months + 1)
  else
    ⟨if 600 ≤ months then none else some months, totalInterest, decide (600 ≤ months)⟩
termination_by 600 - months
decreasing_by omega

/-- The credit-card branch of `loanResults` (`ImpactCalculators.tsx`
lines 296-337): degenerate guard, then the payoff loop started at the
initial balance with zero accumulated interest and month counter 0. -/
def simulateCreditCardPayoff (balance aprPct monthlyRepayment : ℚ) : CCResult :=
  if balance = 0 ∨ monthlyRepayment = 0 then ⟨none, 0, false⟩
  else ccLoop (aprPct / 100 / 12) monthlyRepayment balance 0 0

/-- The balance after `k` iterations of the loop update
`currentBalance = currentBalance + currentBalance * monthlyRate - monthlyRepayment`. -/
def ccBalance (aprPct monthlyRepayment balance : ℚ) (k : ℕ) : ℚ :=
  (fun b => b + b * (aprPct / 100 / 12) - monthlyRepayment)^[k] balance

/-- A node of the parsed XML document as produced by `fast-xml-parser`:
a generic tree of objects, arrays and scalars (route.ts works on this
shape as `unknown`). -/
inductive JVal
  | vNull
  | vStr (s : String)
  | vNum (q : ℚ)
  | vBool (b : Bool)
  | vArr (elems : List JVal)
  | vObj (fields : List (String × JVal))

/-- JavaScript property lookup on an object literal: first binding of the
key wins (a parsed JS object cannot carry duplicate keys). -/
def lookupField : List (String × JVal) → String → Option JVal
  | [], _ => none
  | (k, v) :: rest, key => if k = key then some v else lookupField rest key

/-- JavaScript `String(...)` on a parsed value.  Decimal rendering of
non-integral numbers is not modelled byte-exactly (no theorem below
evaluates it); array elements join with commas, null/undefined elements
join as the empty string, as in `Array.prototype.join`. -/
def jsToString : JVal → String
  | .vStr s => s
  | .vBool true => "true"
  | .vBool false => "false"
  | .vNull => "null"
  | .vNum q =>
    if q.den = 1 then toString q.num else toString q.num ++ "/" ++ toString q.den
  | .vArr xs =>
    String.intercalate ","
      (xs.attach.map (fun x =>
        match x with
        | ⟨.vNull, _⟩ => ""
        | ⟨v, _⟩ => jsToString v))
  | .vObj _ => "[object Object]"

/-- Property lookup that treats `undefined` and `null` alike, mirroring
the `!== undefined && !== null` checks in `extractValue`. -/
def lookupNonNull (fields : List (String × JVal)) (key : String) : Option JVal :=
  match lookupField fields key with
  | some .vNull => none
  | some v => some v
  | none => none

/-- Model of `extractValue` from `route.ts` (lines 18-36): attribute form
(`@_` prefix) first, then the direct child key; absent for non-object
nodes and when neither form is present (non-null). -/
def extractValue (node : JVal) (key : String) : Option String :=
  match node with
  | .vObj fields =>
    match lookupNonNull fields ("@_" ++ key) with
    | some v => some (jsToString v)
    | none =>
      match lookupNonNull fields key with
      | some v => some (jsToString v)
      | none => none
  | _ => none

/-- JavaScript truthiness of a parsed value. -/
def truthy : JVal → Bool
  | .vNull => false
  | .vBool b => b
  | .vNum q => decide (q ≠ 0)
  | .vStr s => decide (s ≠ "")
  | .vArr _ => true
  | .vObj _ => true

/-- Decimal digit test. -/
def isDigitChar (c : Char) : Bool := decide ('0' ≤ c) && decide (c ≤ '9')

/-- Numeric value of a digit string. -/
def digitsVal (cs : List Char) : ℕ :=
  cs.foldl (fun acc c => 10 * acc + (c.toNat - 48)) 0

/-- JavaScript `parseFloat`: longest numeric-literal prefix after leading
whitespace; NaN when no digits are found.  The value is exact in ℚ
(IEEE rounding is not modelled). -/
def parseFloatJs (s : String) : JsNum :=
  let cs := s.data.dropWhile (fun c => c.isWhitespace)
  let sign : Bool × List Char :=
    match cs with
    | '-' :: rest => (true, rest)
    | '+' :: rest => (false, rest)
    | rest => (false, rest)
  let neg := sign.1
  let cs := sign.2
  if cs.take 8 = "Infinity".data then .inf (!neg)
  else
    let intPart := cs.takeWhile isDigitChar
    let rest1 := cs.dropWhile isDigitChar
    let fracSplit : List Char × List Char :=
      match rest1 with
      | '.' :: r => (r.takeWhile isDigitChar, r.dropWhile isDigitChar)
      | _ => ([], rest1)
    let fracPart := fracSplit.1
    let rest2 := fracSplit.2
    if intPart = [] ∧ fracPart = [] then .nan
    else
      let mantissa : ℚ :=
        (digitsVal intPart : ℚ) + (digitsVal fracPart : ℚ) / (10 : ℚ) ^ fracPart.length
      let expo : ℤ :=
        match rest2 with
        | c :: r =>
          if c = 'e' ∨ c = 'E' then
            let esign : Bool × List Char :=
              match r with
              | '-' :: rr => (true, rr)
              | '+' :: rr => (false, rr)
              | rr => (false, rr)
            let eds := esign.2.takeWhile isDigitChar
            if eds = [] then 0
            else if esign.1 then -(digitsVal eds : ℤ) else (digitsVal eds : ℤ)
          else 0
        | [] => 0
      let v : ℚ := mantissa * (10 : ℚ) ^ expo
      .fin (if neg then -v else v)

/-- One `(date, value)` observation (the `DataPoint` interface of
`route.ts`); the value is a JavaScript number (NaN is retained). -/
structure DataPoint where
  date : String
  value : JsNum
deriving DecidableEq

/-- Model of the normalization `Array.isArray(cube) ? cube : [cube]` (route.ts line 52). -/
def spreadCube (v : JVal) : List JVal :=
  match v with
  | .vArr xs => xs
  | x => [x]

/-- Model of `obj.Cube || obj.cube` followed by the truthiness test
`if (cubeArray)` (route.ts lines 49-50). -/
def cubeProp (fields : List (String × JVal)) : Option JVal :=
  match lookupField fields "Cube" with
  | some v =>
    if truthy v then some v
    else
      match lookupField fields "cube" with
      | some w => if truthy w then some w else none
      | none => none
  | none =>
    match lookupField fields "cube" with
    | some w => if truthy w then some w else none
    | none => none

/-- Model of the date resolution (route.ts lines 58 and 75): extract the
TIME_PERIOD field, falling back to the TIME field; JavaScript or-chaining
falls through on the empty string as well as on an absent value. -/
def extractTime (c : JVal) : Option String :=
  match extractValue c "TIME_PERIOD" with
  | some s => if s = "" then extractValue c "TIME" else some s
  | none => extractValue c "TIME"

/-- The body shared by both branches of the observation loop: a candidate
node contributes a point iff both date and value resolve to truthy
(non-empty) strings; the value string goes through `parseFloat`
(route.ts lines 58-68 and 75-85). -/
def extractDataPoint (c : JVal) : Option DataPoint :=
  match extractTime c, extractValue c "OBS_VALUE" with
  | some t, some v => if t ≠ "" ∧ v ≠ "" then some ⟨t, parseFloatJs v⟩ else none
  | _, _ => none

/-- The candidate point-nodes contributed by one raw observation node
(route.ts lines 43-55 and 72-75): non-objects are skipped by the outer
guard; a truthy `Cube`/`cube` property is expanded to its elements;
otherwise the node itself is the single candidate.  An array observation
passes the `typeof` guard but yields no fields, matching the source. -/
def obsCandidates : JVal → List JVal
  | .vObj fields =>
    match cubeProp fields with
    | some v => spreadCube v
    | none => [.vObj fields]
  | .vArr xs => [.vArr xs]
  | _ => []

/-- The stream of parsed points in input order, before de-duplication
(the sequence of `points.push` calls in `parseDataPoints`). -/
def rawDataPoints (observations : List JVal) : List DataPoint :=
  (observations.flatMap obsCandidates).filterMap extractDataPoint

/-- The `seenDates` de-duplication of `parseDataPoints`: the first
occurrence of a date wins, later ones are discarded. -/
def dedupByDate : List DataPoint → List String → List DataPoint
  | [], _ => []
  | p :: ps, seen =>
    if p.date ∈ seen then dedupByDate ps seen
    else p :: dedupByDate ps (p.date :: seen)

/-- Lexicographic (code-point) comparison of strings as character lists,
the order computed by `localeCompare` on canonical ASCII `YYYY-MM-DD`
dates. -/
def charListLe : List Char → List Char → Bool
  | [], _ => true
  | _ :: _, [] => false
  | x :: xs, y :: ys =>
    if x.toNat < y.toNat then true
    else if y.toNat < x.toNat then false
    else charListLe xs ys

/-- Model of `parseDataPoints` from `route.ts` (lines 39-95): collect, de-duplicate
by date (first wins), then sort ascending by date.  The comparator-based
`Array.prototype.sort` with `localeCompare` is modelled as a sort by the
lexicographic string order; on de-duplicated dates the sorted output is
uniquely determined, so any correct sort is an exact model. -/
def parseDataPoints (observations : List JVal) : List DataPoint :=
  (dedupByDate (rawDataPoints observations) []).insertionSort
    (fun a b => charListLe a.date.data b.date.data = true)

/-- Tail of the `getChangesOnly` loop (route.ts lines 103-107): `prev` is
the element of the full series immediately preceding the remaining list. -/
def getChangesOnlyAux (prev : DataPoint) : List DataPoint → List DataPoint
  | [] => []
  | p :: ps =>
    if jsEqb p.value prev.value then getChangesOnlyAux p ps
    else p :: getChangesOnlyAux p ps

/-- Model of `getChangesOnly` from `route.ts` (lines 98-110). -/
def getChangesOnly : List DataPoint → List DataPoint
  | [] => []
  | p :: ps => p :: getChangesOnlyAux p ps

/-- Modelled from the spec (§4.1 `deriveChangesOnly`): empty to empty;
otherwise the first element followed by every element whose value differs
from the immediately preceding element of the full series. -/
def changesOnlySpec : List DataPoint → List DataPoint
  | [] => []
  | p :: ps =>
    p :: ((ps.zip (p :: ps)).filter (fun q => !jsEqb q.1.value q.2.value)).map Prod.fst

/-- Model of `latest` as computed by `GET` (route.ts lines 313-314): the last
element of the changes-only series, or absent when it is empty. -/
def latestOf (points : List DataPoint) : Option DataPoint :=
  (getChangesOnly points).getLast?

/-- The `Cube`/`cube` harvesting at the top of `findCubesRecursive`
(route.ts lines 119-134): each case variant is pushed independently,
arrays spread, single nodes pushed whole, falsy values skipped. -/
def cubesOf (fields : List (String × JVal)) : List JVal :=
  (match lookupField fields "Cube" with
   | some v => if truthy v then spreadCube v else []
   | none => []) ++
  (match lookupField fields "cube" with
   | some v => if truthy v then spreadCube v else []
   | none => [])

mutual

/-- Model of `findCubesRecursive` from `route.ts` (lines 113-148): on an object
field list, gather the (truthy) `Cube` and `cube` values, then recurse
depth-first into every field value that is a non-array object; the
traversal stops once `depth > 5`. -/
def findCubesRecursive (fields : List (String × JVal)) (depth : ℕ) : List JVal :=
  if 5 < depth then []
  else cubesOf fields ++ findCubesInFields fields depth

/-- The `for (const key in obj)` loop of `findCubesRecursive`
(route.ts lines 137-145). -/
def findCubesInFields (fields : List (String × JVal)) (depth : ℕ) : List JVal :=
  match fields with
  | [] => []
  | (_, v) :: rest =>
    (match v with
     | .vObj inner => findCubesRecursive inner (depth + 1)
     | _ => []) ++ findCubesInFields rest depth

end

/-- Reachability: `target` is reached from `root` by following exactly `d` field hops,
each landing on a (non-array) object value — the only descent steps the
recursive search performs. -/
def objReach : ℕ → List (String × JVal) → List (String × JVal) → Prop
  | 0, fields, target => fields = target
  | d + 1, fields, target =>
    ∃ k inner, (k, JVal.vObj inner) ∈ fields ∧ objReach d inner target

lemma jsMul_fin_fin (a b : ℚ) : jsMul (.fin a) (.fin b) = .fin (a * b) := rfl

lemma jsAdd_fin_fin (a b : ℚ) : jsAdd (.fin a) (.fin b) = .fin (a + b) := rfl

lemma jsDiv_fin_fin (a b : ℚ) (hb : b ≠ 0) : jsDiv (.fin a) (.fin b) = .fin (a / b) := by
  simp [jsDiv, hb]

lemma jsLt_fin_fin (a b : ℚ) : jsLt (.fin a) (.fin b) = decide (a < b) := rfl

lemma jsEqb_fin_fin (a b : ℚ) : jsEqb (.fin a) (.fin b) = decide (a = b) := rfl

lemma jsPow_fin_natCast (b : ℚ) (n : ℕ) (hb : b ≠ 0) (hn : n ≠ 0) :
    jsPow (.fin b) (.fin (n : ℚ)) = .fin (b ^ n) := by
  have h0 : ((n : ℚ)) ≠ 0 := Nat.cast_ne_zero.mpr hn
  simp [jsPow, h0, hb, Rat.den_natCast, Rat.num_natCast, zpow_natCast]

/-- C7 (amended): on non-negative finite inputs, `monthlyPaymentInterestOnly`
returns exactly `P * r / 1200`.  (The unamended universal claim fails on
negative principal, where the guard returns 0 instead — see the
counterexample.) -/
theorem claimC7_interestOnly_formula (P r : ℚ) (hP : 0 ≤ P) (hr : 0 ≤ r) :
    monthlyPaymentInterestOnly (.fin P) (.fin r) = .fin (P * r / 1200) := by
  by_cases h0 : P = 0
  · subst h0
    simp [monthlyPaymentInterestOnly, jsLt, jsEqb, JsNum.isNaN]
  · have hP' : ¬P < 0 := not_lt.2 hP
    have hr' : ¬r < 0 := not_lt.2 hr
    have e1 : jsDiv (.fin r) (.fin 100) = .fin (r / 100) :=
      jsDiv_fin_fin r 100 (by norm_num)
    have e2 : jsDiv (.fin (r / 100)) (.fin 12) = .fin (r / 100 / 12) :=
      jsDiv_fin_fin (r / 100) 12 (by norm_num)
    simp [monthlyPaymentInterestOnly, jsLt_fin_fin, jsEqb_fin_fin, JsNum.isNaN,
      hP', hr', h0, e1, e2, jsMul_fin_fin]
    ring

/-- C7 counterexample: the claim quantifies over all `P` and `r`, but for a
negative principal the guard returns 0 while `P * r / 1200` is nonzero. -/
theorem claimC7_counterexample :
    monthlyPaymentInterestOnly (.fin (-1200)) (.fin 1) = .fin 0 ∧
    ((-1200 : ℚ) * 1 / 1200 ≠ 0) := by
  constructor
  · decide
  · norm_num

/-- C7 witness: the amended statement instantiated at `P = 1200`, `r = 1`. -/
theorem claimC7_witness :
    monthlyPaymentInterestOnly (.fin 1200) (.fin 1) = .fin (1200 * 1 / 1200) :=
  claimC7_interestOnly_formula 1200 1 (by norm_num) (by norm_num)

/-- C3 (amended): every calculator function is total, and whenever any
argument is NaN or any checked argument is negative it returns its defined
default (zero for the payment functions, the unchanged balance for the
savings functions).  Positive-infinite arguments are NOT guarded (see the
counterexample), so the non-finite clause of the claim is dropped. -/
theorem claimC3_bad_input_defaults :
    (∀ p r y : JsNum,
       (p.isNaN = true ∨ r.isNaN = true ∨ y.isNaN = true ∨
        jsLt p (.fin 0) = true ∨ jsLt r (.fin 0) = true ∨ jsLt y (.fin 0) = true) →
       monthlyPaymentAmortised p r y = .fin 0) ∧
    (∀ p r : JsNum,
       (p.isNaN = true ∨ r.isNaN = true ∨
        jsLt p (.fin 0) = true ∨ jsLt r (.fin 0) = true) →
       monthlyPaymentInterestOnly p r = .fin 0) ∧
    (∀ b r m : JsNum,
       (b.isNaN = true ∨ r.isNaN = true ∨ m.isNaN = true ∨
        jsLt b (.fin 0) = true ∨ jsLt r (.fin 0) = true ∨ jsLt m (.fin 0) = true) →
       savingsCompoundMonthly b r m = b) ∧
    (∀ b r m : JsNum,
       (b.isNaN = true ∨ r.isNaN = true ∨ m.isNaN = true ∨
        jsLt b (.fin 0) = true ∨ jsLt r (.fin 0) = true ∨ jsLt m (.fin 0) = true) →
       savingsSimple b r m = b) := by
  refine ⟨?_, ?_, ?_, ?_⟩
  · intro p r y h
    unfold monthlyPaymentAmortised
    by_cases hg : (jsLt p (.fin 0) || jsLt r (.fin 0) || jsLt y (.fin 0)) = true
    · rw [if_pos hg]
    · rcases h with h | h | h | h | h | h
      · rw [if_neg hg, if_pos (by simp [h])]
      · rw [if_neg hg, if_pos (by simp [h])]
      · rw [if_neg hg, if_pos (by simp [h])]
      · exact absurd (by simp [h]) hg
      · exact absurd (by simp [h]) hg
      · exact absurd (by simp [h]) hg
  · intro p r h
    unfold monthlyPaymentInterestOnly
    by_cases hg : (jsLt p (.fin 0) || jsLt r (.fin 0)) = true
    · rw [if_pos hg]
    · rcases h with h | h | h | h
      · rw [if_neg hg, if_pos (by simp [h])]
      · rw [if_neg hg, if_pos (by simp [h])]
      · exact absurd (by simp [h]) hg
      · exact absurd (by simp [h]) hg
  · intro b r m h
    unfold savingsCompoundMonthly
    by_cases hg : (jsLt b (.fin 0) || jsLt r (.fin 0) || jsLt m (.fin 0)) = true
    · rw [if_pos hg]
    · rcases h with h | h | h | h | h | h
      · rw [if_neg hg, if_pos (by simp [h])]
      · rw [if_neg hg, if_pos (by simp [h])]
      · rw [if_neg hg, if_pos (by simp [h])]
      · exact absurd (by simp [h]) hg
      · exact absurd (by simp [h]) hg
      · exact absurd (by simp [h]) hg
  · intro b r m h
    unfold savingsSimple
    by_cases hg : (jsLt b (.fin 0) || jsLt r (.fin 0) || jsLt m (.fin 0)) = true
    · rw [if_pos hg]
    · rcases h with h | h | h | h | h | h
      · rw [if_neg hg, if_pos (by simp [h])]
      · rw [if_neg hg, if_pos (by simp [h])]
      · rw [if_neg hg, if_pos (by simp [h])]
      · exact absurd (by simp [h]) hg
      · exact absurd (by simp [h]) hg
      · exact absurd (by simp [h]) hg

/-- C3 counterexample: a positive-infinite principal is neither NaN nor
negative, passes every guard, and propagates to an infinite payment
instead of the defined default 0. -/
theorem claimC3_counterexample :
    monthlyPaymentInterestOnly (.inf true) (.fin 5) = .inf true ∧
    JsNum.inf true ≠ JsNum.fin 0 := by
  constructor
  · have e1 : jsDiv (.fin 5) (.fin 100) = .fin (5 / 100) :=
      jsDiv_fin_fin 5 100 (by norm_num)
    have e2 : jsDiv (.fin (5 / 100)) (.fin 12) = .fin (5 / 100 / 12) :=
      jsDiv_fin_fin (5 / 100) 12 (by norm_num)
    have hq : ((5 : ℚ) / 100 / 12) ≠ 0 := by norm_num
    have hq' : (0 : ℚ) < 5 / 100 / 12 := by norm_num
    simp [monthlyPaymentInterestOnly, jsLt, jsEqb, JsNum.isNaN, e1, e2, jsMul, hq, hq']
  · simp

/-- C3 witness: the amended statement instantiated at a NaN principal. -/
theorem claimC3_witness :
    monthlyPaymentAmortised .nan (.fin 1) (.fin 1) = .fin 0 :=
  claimC3_bad_input_defaults.1 .nan (.fin 1) (.fin 1) (Or.inl rfl)

lemma savingsSimple_fin_eval (B r : ℚ) (n : ℕ) (hB : 0 ≤ B) (hr : 0 ≤ r) (hn : n ≠ 0) :
    savingsSimple (.fin B) (.fin r) (.fin (n : ℚ)) = .fin (B * (1 + r / 100 / 12 * n)) := by
  have hB' : ¬B < 0 := not_lt.2 hB
  have hr' : ¬r < 0 := not_lt.2 hr
  have hn0 : ((n : ℚ)) ≠ 0 := Nat.cast_ne_zero.mpr hn
  have hn' : ¬((n : ℚ)) < 0 := not_lt.2 n.cast_nonneg
  have e1 : jsDiv (.fin r) (.fin 100) = .fin (r / 100) := jsDiv_fin_fin r 100 (by norm_num)
  have e2 : jsDiv (.fin (r / 100)) (.fin 12) = .fin (r / 100 / 12) :=
    jsDiv_fin_fin (r / 100) 12 (by norm_num)
  simp [savingsSimple, jsLt_fin_fin, jsEqb_fin_fin, JsNum.isNaN,
    hB', hr', hn', hn0, e1, e2, jsMul_fin_fin, jsAdd_fin_fin]

lemma savingsCompoundMonthly_fin_eval (B r : ℚ) (n : ℕ) (hB : 0 ≤ B) (hr : 0 ≤ r)
    (hn : n ≠ 0) :
    savingsCompoundMonthly (.fin B) (.fin r) (.fin (n : ℚ)) =
      .fin (B * (1 + r / 100 / 12) ^ n) := by
  have hB' : ¬B < 0 := not_lt.2 hB
  have hr' : ¬r < 0 := not_lt.2 hr
  have hn0 : ((n : ℚ)) ≠ 0 := Nat.cast_ne_zero.mpr hn
  have hn' : ¬((n : ℚ)) < 0 := not_lt.2 n.cast_nonneg
  have e1 : jsDiv (.fin r) (.fin 100) = .fin (r / 100) := jsDiv_fin_fin r 100 (by norm_num)
  have e2 : jsDiv (.fin (r / 100)) (.fin 12) = .fin (r / 100 / 12) :=
    jsDiv_fin_fin (r / 100) 12 (by norm_num)
  have hbase : (1 : ℚ) + r / 100 / 12 ≠ 0 := by positivity
  have e3 : jsPow (.fin (1 + r / 100 / 12)) (.fin (n : ℚ)) = .fin ((1 + r / 100 / 12) ^ n) :=
    jsPow_fin_natCast _ n hbase hn
  simp [savingsCompoundMonthly, jsLt_fin_fin, jsEqb_fin_fin, JsNum.isNaN,
    hB', hr', hn', hn0, e1, e2, jsAdd_fin_fin, e3, jsMul_fin_fin]

/-- C8: for positive balance and rate and an integral month count above 1,
monthly compounding dominates simple interest: both functions evaluate to
their closed forms and the compound form is at least the simple form. -/
theorem claimC8_compound_dominates (B r : ℚ) (n : ℕ) (hB : 0 < B) (hr : 0 < r)
    (hn : 1 < n) :
    savingsSimple (.fin B) (.fin r) (.fin (n : ℚ)) = .fin (B * (1 + r / 100 / 12 * n)) ∧
    savingsCompoundMonthly (.fin B) (.fin r) (.fin (n : ℚ)) =
      .fin (B * (1 + r / 100 / 12) ^ n) ∧
    B * (1 + r / 100 / 12 * n) ≤ B * (1 + r / 100 / 12) ^ n := by
  have hn0 : n ≠ 0 := by omega
  refine ⟨savingsSimple_fin_eval B r n hB.le hr.le hn0,
    savingsCompoundMonthly_fin_eval B r n hB.le hr.le hn0, ?_⟩
  have key : 1 + (n : ℚ) * (r / 100 / 12) ≤ (1 + r / 100 / 12) ^ n :=
    one_add_mul_le_pow (by linarith) n
  have := mul_le_mul_of_nonneg_left key hB.le
  calc B * (1 + r / 100 / 12 * n) = B * (1 + (n : ℚ) * (r / 100 / 12)) := by ring
    _ ≤ B * (1 + r / 100 / 12) ^ n := this

/-- C8 witness: the statement instantiated at `B = 1`, `r = 1200`, `n = 2`. -/
theorem claimC8_witness :
    savingsSimple (.fin 1) (.fin 1200) (.fin ((2 : ℕ) : ℚ)) =
      .fin (1 * (1 + 1200 / 100 / 12 * ((2 : ℕ) : ℚ))) ∧
    savingsCompoundMonthly (.fin 1) (.fin 1200) (.fin ((2 : ℕ) : ℚ)) =
      .fin (1 * (1 + 1200 / 100 / 12) ^ (2 : ℕ)) ∧
    (1 : ℚ) * (1 + 1200 / 100 / 12 * ((2 : ℕ) : ℚ)) ≤ 1 * (1 + 1200 / 100 / 12) ^ (2 : ℕ) :=
  claimC8_compound_dominates 1 1200 2 one_pos (by norm_num) one_lt_two

lemma jsEqb_eq_of_true {x y : JsNum} (h : jsEqb x y = true) : x = y := by
  cases x <;> cases y <;> simp_all [jsEqb]

lemma jsEqb_comm (x y : JsNum) : jsEqb x y = jsEqb y x := by
  cases x <;> cases y <;> simp [jsEqb, eq_comm, Bool.beq_comm]

lemma getChangesOnlyAux_eq_spec (ps : List DataPoint) :
    ∀ prev, getChangesOnlyAux prev ps =
      ((ps.zip (prev :: ps)).filter (fun q => !jsEqb q.1.value q.2.value)).map Prod.fst := by
  induction ps with
  | nil => intro prev; simp [getChangesOnlyAux]
  | cons q qs ih =>
    intro prev
    by_cases h : jsEqb q.value prev.value = true
    · simp [getChangesOnlyAux, h, ih q]
    · simp only [Bool.not_eq_true] at h
      simp [getChangesOnlyAux, h, ih q]

lemma mem_getChangesOnlyAux_aba {a b c : DataPoint} (post : List DataPoint)
    (hba : jsEqb b.value a.value = false) (hcb : jsEqb c.value b.value = false)
    (pre : List DataPoint) :
    ∀ prev, b ∈ getChangesOnlyAux prev (pre ++ a :: b :: c :: post) ∧
      c ∈ getChangesOnlyAux prev (pre ++ a :: b :: c :: post) := by
  induction pre with
  | nil =>
    intro prev
    by_cases h : jsEqb a.value prev.value = true
    · simp [getChangesOnlyAux, h, hba, hcb]
    · simp only [Bool.not_eq_true] at h
      simp [getChangesOnlyAux, h, hba, hcb]
  | cons q pre' ih =>
    intro prev
    by_cases h : jsEqb q.value prev.value = true
    · simpa [getChangesOnlyAux, h] using ih q
    · simp only [Bool.not_eq_true] at h
      simp only [List.cons_append, getChangesOnlyAux, h, Bool.false_eq_true, if_false]
      exact ⟨List.mem_cons_of_mem _ (ih q).1, List.mem_cons_of_mem _ (ih q).2⟩

/-- C1 (amended): `getChangesOnly` maps the empty series to the empty
sequence; on a non-empty series its first element is element 0 of the
series; it equals the spec-side derivation that keeps exactly the elements
whose value differs (JavaScript `!==`) from the immediately preceding
element of the FULL series; and for three consecutive points valued
A, B, A with A ≠ B, the second and third of those points appear in the
output (no collapse back to A).  The unamended "all three points appear"
fails when the first of the three is itself a non-change — see the
counterexample. -/
theorem claimC1_changesOnly :
    getChangesOnly ([] : List DataPoint) = [] ∧
    (∀ (p : DataPoint) (ps : List DataPoint), (getChangesOnly (p :: ps)).head? = some p) ∧
    (∀ pts : List DataPoint, getChangesOnly pts = changesOnlySpec pts) ∧
    (∀ (pre post : List DataPoint) (a b c : DataPoint),
       jsEqb b.value a.value = false → c.value = a.value →
       b ∈ getChangesOnly (pre ++ a :: b :: c :: post) ∧
       c ∈ getChangesOnly (pre ++ a :: b :: c :: post)) := by
  refine ⟨rfl, fun p ps => rfl, ?_, ?_⟩
  · intro pts
    cases pts with
    | nil => rfl
    | cons p ps => simp [getChangesOnly, changesOnlySpec, getChangesOnlyAux_eq_spec]
  · intro pre post a b c hba hca
    have hcb : jsEqb c.value b.value = false := by
      rw [hca, jsEqb_comm]
      exact hba
    cases pre with
    | nil =>
      constructor <;> simp [getChangesOnly, getChangesOnlyAux, hba, hcb]
    | cons p pre' =>
      have hm := mem_getChangesOnlyAux_aba post hba hcb pre' p
      simp only [List.cons_append, getChangesOnly]
      exact ⟨List.mem_cons_of_mem _ hm.1, List.mem_cons_of_mem _ hm.2⟩

/-- C1 counterexample: the series below has three consecutive points with
values 0, 1, 0 (an A→B→A cycle with A ≠ B), yet the first of those three
points — a non-change relative to its own predecessor — does not appear in
the changes-only output, refuting "all three points appear". -/
theorem claimC1_counterexample :
    getChangesOnly
        [⟨"2000-01-01", .fin 0⟩, ⟨"2000-01-02", .fin 0⟩,
         ⟨"2000-01-03", .fin 1⟩, ⟨"2000-01-04", .fin 0⟩] =
      [⟨"2000-01-01", .fin 0⟩, ⟨"2000-01-03", .fin 1⟩, ⟨"2000-01-04", .fin 0⟩] ∧
    (⟨"2000-01-02", .fin 0⟩ : DataPoint) ∉
      getChangesOnly
        [⟨"2000-01-01", .fin 0⟩, ⟨"2000-01-02", .fin 0⟩,
         ⟨"2000-01-03", .fin 1⟩, ⟨"2000-01-04", .fin 0⟩] := by
  constructor
  · decide
  · decide

/-- C1 witness: the amended A-B-A clause instantiated on a concrete
four-point series. -/
theorem claimC1_witness :
    (⟨"2000-01-03", JsNum.fin 1⟩ : DataPoint) ∈
      getChangesOnly
        [⟨"2000-01-01", .fin 0⟩, ⟨"2000-01-02", .fin 0⟩,
         ⟨"2000-01-03", .fin 1⟩, ⟨"2000-01-04", .fin 0⟩] ∧
    (⟨"2000-01-04", JsNum.fin 0⟩ : DataPoint) ∈
      getChangesOnly
        [⟨"2000-01-01", .fin 0⟩, ⟨"2000-01-02", .fin 0⟩,
         ⟨"2000-01-03", .fin 1⟩, ⟨"2000-01-04", .fin 0⟩] :=
  claimC1_changesOnly.2.2.2 [⟨"2000-01-01", .fin 0⟩] []
    ⟨"2000-01-02", .fin 0⟩ ⟨"2000-01-03", .fin 1⟩ ⟨"2000-01-04", .fin 0⟩
    (by decide) (by decide)

/-- C9: `extractValue` prefers the attribute-style (`@_`-prefixed) form over
the direct child form whenever the attribute form is present (non-null),
returns absent when neither form is present, and returns absent (not an
error) on every non-object node. -/
theorem claimC9_extractValue :
    (∀ (fields : List (String × JVal)) (key : String) (v w : JVal),
       lookupNonNull fields ("@_" ++ key) = some v →
       lookupNonNull fields key = some w →
       extractValue (.vObj fields) key = some (jsToString v)) ∧
    (∀ (fields : List (String × JVal)) (key : String),
       lookupNonNull fields ("@_" ++ key) = none →
       lookupNonNull fields key = none →
       extractValue (.vObj fields) key = none) ∧
    (∀ key, extractValue .vNull key = none) ∧
    (∀ s key, extractValue (.vStr s) key = none) ∧
    (∀ q key, extractValue (.vNum q) key = none) ∧
    (∀ b key, extractValue (.vBool b) key = none) ∧
    (∀ xs key, extractValue (.vArr xs) key = none) := by
  refine ⟨?_, ?_, fun _ => rfl, fun _ _ => rfl, fun _ _ => rfl, fun _ _ => rfl,
    fun _ _ => rfl⟩
  · intro fields key v w h1 _
    simp [extractValue, h1]
  · intro fields key h1 h2
    simp [extractValue, h1, h2]

/-- C9 witness: a node exposing both the attribute-style and the
child-style form of the field `X`; the attribute value wins. -/
theorem claimC9_witness :
    extractValue (.vObj [("@_X", .vStr "attr"), ("X", .vStr "child")]) "X" =
      some (jsToString (.vStr "attr")) :=
  claimC9_extractValue.1 [("@_X", .vStr "attr"), ("X", .vStr "child")] "X"
    (.vStr "attr") (.vStr "child") rfl rfl

lemma getChangesOnlyAux_getLastD_value (l : List DataPoint) :
    ∀ p : DataPoint,
      ((getChangesOnlyAux p l).getLastD p).value = (l.getLastD p).value := by
  induction l with
  | nil => intro p; simp [getChangesOnlyAux]
  | cons q l' ih =>
    intro p
    rw [List.getLastD_cons]
    by_cases h : jsEqb q.value p.value = true
    · rw [getChangesOnlyAux, if_pos h]
      cases haux : getChangesOnlyAux q l' with
      | nil =>
        have hh := ih q
        rw [haux] at hh
        simp only [List.getLastD_nil] at hh
        simp only [haux, List.getLastD_nil]
        rw [← hh]
        exact (jsEqb_eq_of_true h).symm
      | cons x xs =>
        have hh := ih q
        rw [haux] at hh
        simpa [List.getLastD_cons] using hh
    · rw [getChangesOnlyAux, if_neg h, List.getLastD_cons]
      exact ih q

lemma getLast?_cons_getLastD {α : Type} (a : α) (l : List α) :
    (a :: l).getLast? = some (l.getLastD a) := by
  induction l generalizing a with
  | nil => rfl
  | cons x xs ih => rw [List.getLastD_cons, List.getLast?_cons_cons, ih x]

/-- C10: for a non-empty series with no NaN values, the `latest` pointer
(the last element of the changes-only series) carries the same value as the
last element of the full series, even though its date may be earlier. -/
theorem claimC10_latest_value (pts : List DataPoint) (hne : pts ≠ [])
    (hnn : ∀ p ∈ pts, p.value.isNaN = false) :
    Option.map DataPoint.value (latestOf pts) =
      Option.map DataPoint.value pts.getLast? := by
  cases pts with
  | nil => exact absurd rfl hne
  | cons p ps =>
    rw [latestOf, getChangesOnly, getLast?_cons_getLastD, getLast?_cons_getLastD]
    simp only [Option.map_some']
    exact congrArg some (getChangesOnlyAux_getLastD_value ps p)

/-- C10 witness: the statement instantiated at a concrete two-point series
ending in a repeated value. -/
theorem claimC10_witness :
    Option.map DataPoint.value
        (latestOf [⟨"2024-01-01", .fin 5⟩, ⟨"2024-02-01", .fin 5⟩]) =
      Option.map DataPoint.value
        ([⟨"2024-01-01", .fin 5⟩, ⟨"2024-02-01", .fin 5⟩] : List DataPoint).getLast? :=
  claimC10_latest_value [⟨"2024-01-01", .fin 5⟩, ⟨"2024-02-01", .fin 5⟩]
    (by simp) (by decide)

lemma dedupByDate_pairwise (l : List DataPoint) :
    ∀ seen, List.Pairwise (fun a b => a.date ≠ b.date) (dedupByDate l seen) ∧
      ∀ p ∈ dedupByDate l seen, p.date ∉ seen := by
  induction l with
  | nil => intro seen; simp [dedupByDate]
  | cons q l' ih =>
    intro seen
    by_cases h : q.date ∈ seen
    · rw [dedupByDate, if_pos h]
      exact ih seen
    · rw [dedupByDate, if_neg h]
      obtain ⟨hpw, hseen⟩ := ih (q.date :: seen)
      refine ⟨List.Pairwise.cons ?_ hpw, ?_⟩
      · intro x hx
        have hx' := hseen x hx
        simp only [List.mem_cons, not_or] at hx'
        exact fun hqx => hx'.1 hqx.symm
      · intro p hp
        rcases List.mem_cons.mp hp with rfl | hp'
        · exact h
        · have hp'' := hseen p hp'
          simp only [List.mem_cons, not_or] at hp''
          exact hp''.2

lemma dedupByDate_find (l : List DataPoint) :
    ∀ seen p, p ∈ dedupByDate l seen →
      p.date ∉ seen ∧ l.find? (fun q => q.date == p.date) = some p := by
  induction l with
  | nil => intro seen p hp; simp [dedupByDate] at hp
  | cons q l' ih =>
    intro seen p hp
    by_cases h : q.date ∈ seen
    · rw [dedupByDate, if_pos h] at hp
      obtain ⟨hns, hfind⟩ := ih seen p hp
      have hne : (q.date == p.date) = false := by
        rw [beq_eq_false_iff_ne]
        intro he
        exact hns (he ▸ h)
      exact ⟨hns, by simp [List.find?_cons, hne, hfind]⟩
    · rw [dedupByDate, if_neg h] at hp
      rcases List.mem_cons.mp hp with rfl | hp'
      · exact ⟨h, by simp [List.find?_cons]⟩
      · obtain ⟨hns, hfind⟩ := ih (q.date :: seen) p hp'
        simp only [List.mem_cons, not_or] at hns
        have hne : (q.date == p.date) = false := by
          rw [beq_eq_false_iff_ne]
          exact fun he => hns.1 he.symm
        exact ⟨hns.2, by simp [List.find?_cons, hne, hfind]⟩

lemma dedupByDate_covers (l : List DataPoint) :
    ∀ seen q, q ∈ l →
      q.date ∈ seen ∨ ∃ p ∈ dedupByDate l seen, p.date = q.date := by
  induction l with
  | nil => intro seen q hq; simp at hq
  | cons x l' ih =>
    intro seen q hq
    by_cases h : x.date ∈ seen
    · rw [dedupByDate, if_pos h]
      rcases List.mem_cons.mp hq with rfl | hq'
      · exact Or.inl h
      · exact ih seen q hq'
    · rw [dedupByDate, if_neg h]
      rcases List.mem_cons.mp hq with rfl | hq'
      · exact Or.inr ⟨q, List.mem_cons_self _ _, rfl⟩
      · rcases ih (x.date :: seen) q hq' with hs | ⟨p, hp, he⟩
        · rcases List.mem_cons.mp hs with he2 | hs'
          · exact Or.inr ⟨x, List.mem_cons_self _ _, he2.symm⟩
          · exact Or.inl hs'
        · exact Or.inr ⟨p, List.mem_cons_of_mem _ hp, he⟩

lemma charListLe_cons_cons (x y : Char) (xs ys : List Char) :
    charListLe (x :: xs) (y :: ys) =
      if x.toNat < y.toNat then true
      else if y.toNat < x.toNat then false else charListLe xs ys := rfl

lemma charListLe_cons_nil (x : Char) (xs : List Char) :
    charListLe (x :: xs) [] = false := rfl

lemma charListLe_total : ∀ xs ys : List Char, charListLe xs ys = true ∨ charListLe ys xs = true := by
  intro xs
  induction xs with
  | nil => intro ys; left; rfl
  | cons x xs ih =>
    intro ys
    cases ys with
    | nil => right; rfl
    | cons y ys' =>
      rcases Nat.lt_trichotomy x.toNat y.toNat with h | h | h
      · left; rw [charListLe_cons_cons, if_pos h]
      · rcases ih ys' with h' | h'
        · left
          rw [charListLe_cons_cons, if_neg (by omega : ¬x.toNat < y.toNat),
            if_neg (by omega : ¬y.toNat < x.toNat)]
          exact h'
        · right
          rw [charListLe_cons_cons, if_neg (by omega : ¬y.toNat < x.toNat),
            if_neg (by omega : ¬x.toNat < y.toNat)]
          exact h'
      · right; rw [charListLe_cons_cons, if_pos h]

lemma charListLe_trans : ∀ xs ys zs : List Char,
    charListLe xs ys = true → charListLe ys zs = true → charListLe xs zs = true := by
  intro xs
  induction xs with
  | nil => intros; rfl
  | cons x xs ih =>
    intro ys zs h1 h2
    cases ys with
    | nil => rw [charListLe_cons_nil] at h1; exact absurd h1 Bool.false_ne_true
    | cons y ys' =>
      cases zs with
      | nil => rw [charListLe_cons_nil] at h2; exact absurd h2 Bool.false_ne_true
      | cons z zs' =>
        rcases Nat.lt_trichotomy x.toNat y.toNat with hxy | hxy | hxy
        · rcases Nat.lt_trichotomy y.toNat z.toNat with hyz | hyz | hyz
          · rw [charListLe_cons_cons, if_pos (by omega : x.toNat < z.toNat)]
          · rw [charListLe_cons_cons, if_pos (by omega : x.toNat < z.toNat)]
          · rw [charListLe_cons_cons, if_neg (by omega : ¬y.toNat < z.toNat),
              if_pos hyz] at h2
            exact absurd h2 Bool.false_ne_true
        · rcases Nat.lt_trichotomy y.toNat z.toNat with hyz | hyz | hyz
          · rw [charListLe_cons_cons, if_pos (by omega : x.toNat < z.toNat)]
          · rw [charListLe_cons_cons, if_neg (by omega : ¬x.toNat < y.toNat),
              if_neg (by omega : ¬y.toNat < x.toNat)] at h1
            rw [charListLe_cons_cons, if_neg (by omega : ¬y.toNat < z.toNat),
              if_neg (by omega : ¬z.toNat < y.toNat)] at h2
            rw [charListLe_cons_cons, if_neg (by omega : ¬x.toNat < z.toNat),
              if_neg (by omega : ¬z.toNat < x.toNat)]
            exact ih ys' zs' h1 h2
          · rw [charListLe_cons_cons, if_neg (by omega : ¬y.toNat < z.toNat),
              if_pos hyz] at h2
            exact absurd h2 Bool.false_ne_true
        · rw [charListLe_cons_cons, if_neg (by omega : ¬x.toNat < y.toNat),
            if_pos hxy] at h1
          exact absurd h1 Bool.false_ne_true

/-- C2: for every list of raw observation nodes, `parseDataPoints` is
ascending by date under the lexicographic string comparison and carries no
duplicate date (together: strictly ascending); every output point is the
FIRST point of that date in the raw input-order stream (first occurrence
wins, later ones discarded); and no date of the raw stream is lost. -/
theorem claimC2_parse_sorted_dedup (observations : List JVal) :
    List.Pairwise
      (fun a b => charListLe a.date.data b.date.data = true ∧ a.date ≠ b.date)
      (parseDataPoints observations) ∧
    (∀ p ∈ parseDataPoints observations,
       (rawDataPoints observations).find? (fun q => q.date == p.date) = some p) ∧
    (∀ q ∈ rawDataPoints observations,
       ∃ p ∈ parseDataPoints observations, p.date = q.date) := by
  haveI : IsTotal DataPoint (fun a b => charListLe a.date.data b.date.data = true) :=
    ⟨fun a b => charListLe_total a.date.data b.date.data⟩
  haveI : IsTrans DataPoint (fun a b => charListLe a.date.data b.date.data = true) :=
    ⟨fun _ _ _ hab hbc => charListLe_trans _ _ _ hab hbc⟩
  have hperm : List.Perm (parseDataPoints observations)
      (dedupByDate (rawDataPoints observations) []) :=
    List.perm_insertionSort _ _
  have hsorted : List.Sorted (fun a b : DataPoint => charListLe a.date.data b.date.data = true)
      (parseDataPoints observations) := List.sorted_insertionSort _ _
  have hne : List.Pairwise (fun a b : DataPoint => a.date ≠ b.date)
      (parseDataPoints observations) :=
    (hperm.pairwise_iff (fun {_ _} h => Ne.symm h)).mpr
      (dedupByDate_pairwise (rawDataPoints observations) []).1
  refine ⟨hsorted.and hne, ?_, ?_⟩
  · intro p hp
    exact (dedupByDate_find (rawDataPoints observations) [] p (hperm.subset hp)).2
  · intro q hq
    rcases dedupByDate_covers (rawDataPoints observations) [] q hq with hs | ⟨p, hp, he⟩
    · simp at hs
    · exact ⟨p, hperm.symm.subset hp, he⟩

/-- Fixture for the C2 witness: two raw nodes share the date 2024-01-02
with different values, and a third carries the earlier date 2024-01-01. -/
def sampleObs : List JVal :=
  [.vObj [("@_TIME_PERIOD", .vStr "2024-01-02"), ("@_OBS_VALUE", .vStr "5")],
   .vObj [("@_TIME_PERIOD", .vStr "2024-01-02"), ("@_OBS_VALUE", .vStr "7")],
   .vObj [("@_TIME_PERIOD", .vStr "2024-01-01"), ("@_OBS_VALUE", .vStr "4")]]

/-- C2 witness: on the fixture, the output point for 2024-01-02 is the
first raw occurrence of that date (value "5", not "7"). -/
theorem claimC2_witness :
    (rawDataPoints sampleObs).find? (fun q => q.date == "2024-01-02") =
      some ⟨"2024-01-02", parseFloatJs "5"⟩ :=
  (claimC2_parse_sorted_dedup sampleObs).2.1 ⟨"2024-01-02", parseFloatJs "5"⟩
    (by
      have h1 : rawDataPoints sampleObs =
          [⟨"2024-01-02", parseFloatJs "5"⟩, ⟨"2024-01-02", parseFloatJs "7"⟩,
           ⟨"2024-01-01", parseFloatJs "4"⟩] := by
        simp [rawDataPoints, sampleObs, obsCandidates, cubeProp, lookupField,
          extractDataPoint, extractTime, extractValue, lookupNonNull, jsToString,
          spreadCube, truthy]
      have h2 : parseDataPoints sampleObs =
          [⟨"2024-01-01", parseFloatJs "4"⟩, ⟨"2024-01-02", parseFloatJs "5"⟩] := by
        calc parseDataPoints sampleObs
            = (dedupByDate (rawDataPoints sampleObs) []).insertionSort
                (fun a b => charListLe a.date.data b.date.data = true) := rfl
          _ = [⟨"2024-01-01", parseFloatJs "4"⟩, ⟨"2024-01-02", parseFloatJs "5"⟩] := by
              rw [h1]
              rfl
      rw [h2]
      simp)

lemma findCubesRecursive_eq (fields : List (String × JVal)) (depth : ℕ) :
    findCubesRecursive fields depth =
      if 5 < depth then [] else cubesOf fields ++ findCubesInFields fields depth := by
  rw [findCubesRecursive]

lemma findCubesInFields_nil (depth : ℕ) : findCubesInFields [] depth = [] := by
  rw [findCubesInFields]

lemma findCubesInFields_cons (k : String) (v : JVal) (rest : List (String × JVal))
    (depth : ℕ) :
    findCubesInFields ((k, v) :: rest) depth =
      (match v with
       | .vObj inner => findCubesRecursive inner (depth + 1)
       | _ => []) ++ findCubesInFields rest depth := by
  cases v <;> rw [findCubesInFields] <;> simp

lemma mem_findCubesInFields (k : String) (inner : List (String × JVal)) (depth : ℕ)
    (x : JVal) :
    ∀ fields : List (String × JVal), (k, JVal.vObj inner) ∈ fields →
      x ∈ findCubesRecursive inner (depth + 1) → x ∈ findCubesInFields fields depth := by
  intro fields
  induction fields with
  | nil => intro h _; simp at h
  | cons p rest ih =>
    intro hmem hx
    obtain ⟨k', v'⟩ := p
    rw [findCubesInFields_cons]
    rcases List.mem_cons.mp hmem with heq | hmem'
    · have hv : v' = JVal.vObj inner := ((Prod.mk.injEq _ _ _ _).mp heq).2.symm
      subst hv
      exact List.mem_append_left _ hx
    · exact List.mem_append_right _ (ih hmem' hx)

lemma findCubes_complete (d : ℕ) :
    ∀ (p : ℕ) (root target : List (String × JVal)), d + p ≤ 5 →
      objReach d root target →
      ∀ c ∈ cubesOf target, c ∈ findCubesRecursive root p := by
  induction d with
  | zero =>
    intro p root target hdp hreach c hc
    have heq : root = target := hreach
    subst heq
    rw [findCubesRecursive_eq, if_neg (by omega : ¬5 < p)]
    exact List.mem_append_left _ hc
  | succ d ih =>
    intro p root target hdp hreach c hc
    obtain ⟨k, inner, hmem, hreach'⟩ := hreach
    have hx : c ∈ findCubesRecursive inner (p + 1) :=
      ih (p + 1) inner target (by omega) hreach' c hc
    rw [findCubesRecursive_eq, if_neg (by omega : ¬5 < p)]
    exact List.mem_append_right _ (mem_findCubesInFields k inner p c root hmem hx)

/-- C6 (amended): the bounded recursive search collects every point-node
stored under a (truthy) `Cube` or `cube` key of any object reachable from
the root through object-valued fields within the depth bound of 5 levels.
The unamended claim says "anywhere in the input subtree"; that fails for
point-nodes nested inside arrays, which the recursion never enters — see
the counterexample. -/
theorem claimC6_cubes_complete :
    ∀ d ≤ 5, ∀ root target : List (String × JVal), objReach d root target →
      ∀ c ∈ cubesOf target, c ∈ findCubesRecursive root 0 := by
  intro d hd root target hreach c hc
  exact findCubes_complete d 0 root target (by omega) hreach c hc

/-- A well-formed point-node for the C6 fixtures. -/
def cubePointC6 : JVal := .vObj [("@_TIME", .vStr "2024-01-01"), ("@_OBS_VALUE", .vStr "5")]

/-- C6 counterexample: a point-node under a `Cube` key only two levels
below the root — well within the depth bound — is missed entirely because
it sits inside an array element, which the recursion refuses to enter
(`!Array.isArray(value)` guard). -/
theorem claimC6_counterexample :
    findCubesRecursive [("wrapper", JVal.vArr [JVal.vObj [("Cube", cubePointC6)]])] 0 = [] ∧
    lookupField [("wrapper", JVal.vArr [JVal.vObj [("Cube", cubePointC6)]])] "wrapper" =
      some (JVal.vArr [JVal.vObj [("Cube", cubePointC6)]]) := by
  constructor
  · rw [findCubesRecursive_eq, if_neg (by omega : ¬(5:ℕ) < 0),
      findCubesInFields_cons, findCubesInFields_nil]
    simp [cubesOf, lookupField]
  · simp [lookupField]

/-- C6 witness: the amended completeness statement instantiated one object
level down from the root. -/
theorem claimC6_witness :
    cubePointC6 ∈ findCubesRecursive [("a", JVal.vObj [("Cube", cubePointC6)])] 0 :=
  claimC6_cubes_complete 1 (by omega) [("a", JVal.vObj [("Cube", cubePointC6)])]
    [("Cube", cubePointC6)]
    ⟨"a", [("Cube", cubePointC6)], by simp, rfl⟩ cubePointC6
    (by simp [cubesOf, lookupField, truthy, spreadCube, cubePointC6])

lemma ccLoop_eq (r p b ti : ℚ) (months : ℕ) :
    ccLoop r p b ti months =
      if 1/100 < b ∧ months < 600 then
        (if p ≤ b * r then ⟨none, ti + b * r, true⟩
         else ccLoop r p (b + b * r - p) (ti + b * r) (months + 1))
      else ⟨if 600 ≤ months then none else some months, ti, decide (600 ≤ months)⟩ := by
  rw [ccLoop]
  rfl

lemma ccLoop_payoff (r p : ℚ) :
    ∀ (m : ℕ) (b ti : ℚ) (months : ℕ),
      months + m < 600 →
      (∀ k < m, 1/100 < (fun x => x + x * r - p)^[k] b ∧
         (fun x => x + x * r - p)^[k] b * r < p) →
      (fun x => x + x * r - p)^[m] b ≤ 1/100 →
      ccLoop r p b ti months =
        ⟨some (months + m),
         ti + ∑ k in Finset.range m, (fun x => x + x * r - p)^[k] b * r, false⟩ := by
  intro m
  induction m with
  | zero =>
    intro b ti months hlt hpre hbal
    simp only [Function.iterate_zero, id_eq] at hbal
    rw [ccLoop_eq, if_neg (by rw [not_and_or]; exact Or.inl (not_lt.2 hbal))]
    have h6 : ¬600 ≤ months := by omega
    simp [h6]
  | succ m ih =>
    intro b ti months hlt hpre hbal
    have h0 := hpre 0 (by omega)
    simp only [Function.iterate_zero, id_eq] at h0
    rw [ccLoop_eq, if_pos ⟨h0.1, by omega⟩, if_neg (not_le.2 h0.2)]
    have hpre' : ∀ k < m, 1/100 < (fun x => x + x * r - p)^[k] (b + b * r - p) ∧
        (fun x => x + x * r - p)^[k] (b + b * r - p) * r < p := by
      intro k hk
      have hk1 := hpre (k + 1) (by omega)
      rwa [Function.iterate_succ_apply] at hk1
    have hbal' : (fun x => x + x * r - p)^[m] (b + b * r - p) ≤ 1/100 := by
      rwa [Function.iterate_succ_apply] at hbal
    rw [ih (b + b * r - p) (ti + b * r) (months + 1) (by omega) hpre' hbal']
    simp only [CCResult.mk.injEq]
    refine ⟨congrArg some (by omega), ?_, trivial⟩
    rw [Finset.sum_range_succ']
    simp only [Function.iterate_succ_apply, Function.iterate_zero, id_eq]
    ring

lemma ccLoop_insufficient (r p : ℚ) :
    ∀ (m : ℕ) (b ti : ℚ) (months : ℕ),
      months + m < 600 →
      (∀ k < m, 1/100 < (fun x => x + x * r - p)^[k] b ∧
         (fun x => x + x * r - p)^[k] b * r < p) →
      1/100 < (fun x => x + x * r - p)^[m] b →
      p ≤ (fun x => x + x * r - p)^[m] b * r →
      ccLoop r p b ti months =
        ⟨none,
         ti + ∑ k in Finset.range (m + 1), (fun x => x + x * r - p)^[k] b * r, true⟩ := by
  intro m
  induction m with
  | zero =>
    intro b ti months hlt hpre hbal hins
    simp only [Function.iterate_zero, id_eq] at hbal hins
    rw [ccLoop_eq, if_pos ⟨hbal, by omega⟩, if_pos hins]
    simp [Finset.sum_range_one]
  | succ m ih =>
    intro b ti months hlt hpre hbal hins
    have h0 := hpre 0 (by omega)
    simp only [Function.iterate_zero, id_eq] at h0
    rw [ccLoop_eq, if_pos ⟨h0.1, by omega⟩, if_neg (not_le.2 h0.2)]
    have hpre' : ∀ k < m, 1/100 < (fun x => x + x * r - p)^[k] (b + b * r - p) ∧
        (fun x => x + x * r - p)^[k] (b + b * r - p) * r < p := by
      intro k hk
      have hk1 := hpre (k + 1) (by omega)
      rwa [Function.iterate_succ_apply] at hk1
    have hbal' : 1/100 < (fun x => x + x * r - p)^[m] (b + b * r - p) := by
      rwa [Function.iterate_succ_apply] at hbal
    have hins' : p ≤ (fun x => x + x * r - p)^[m] (b + b * r - p) * r := by
      rwa [Function.iterate_succ_apply] at hins
    rw [ih (b + b * r - p) (ti + b * r) (months + 1) (by omega) hpre' hbal' hins']
    simp only [CCResult.mk.injEq]
    refine ⟨trivial, ?_, trivial⟩
    conv_rhs => rw [Finset.sum_range_succ']
    simp only [Function.iterate_succ_apply, Function.iterate_zero, id_eq]
    ring

lemma ccLoop_cap (r p : ℚ) :
    ∀ (n : ℕ) (b ti : ℚ) (months : ℕ),
      months + n = 600 →
      (∀ k < n, 1/100 < (fun x => x + x * r - p)^[k] b ∧
         (fun x => x + x * r - p)^[k] b * r < p) →
      (ccLoop r p b ti months).monthsToRepay = none ∧
      (ccLoop r p b ti months).willNotRepay = true := by
  intro n
  induction n with
  | zero =>
    intro b ti months hm hpre
    rw [ccLoop_eq, if_neg (by omega)]
    have h6 : 600 ≤ months := by omega
    simp [h6]
  | succ n ih =>
    intro b ti months hm hpre
    have h0 := hpre 0 (by omega)
    simp only [Function.iterate_zero, id_eq] at h0
    rw [ccLoop_eq, if_pos ⟨h0.1, by omega⟩, if_neg (not_le.2 h0.2)]
    have hpre' : ∀ k < n, 1/100 < (fun x => x + x * r - p)^[k] (b + b * r - p) ∧
        (fun x => x + x * r - p)^[k] (b + b * r - p) * r < p := by
      intro k hk
      have hk1 := hpre (k + 1) (by omega)
      rwa [Function.iterate_succ_apply] at hk1
    exact ih (b + b * r - p) (ti + b * r) (months + 1) (by omega) hpre'

/-- C4: for positive balance and payment, whenever the iterated balance
update first reaches the 0.01 tolerance at month `m` strictly inside the
600-iteration cap — with the payment exceeding the interest of each traversed
month — the simulation returns `monthsToRepay = m` and
`willNotRepay = false`; and if (still with sufficient payment) the balance
stays above the tolerance for all 600 capped months, the result is
`monthsToRepay` absent and `willNotRepay = true`. -/
theorem claimC4_payoff_termination (balance aprPct payment : ℚ)
    (hb : 0 < balance) (hp : 0 < payment) :
    (∀ m, m < 600 →
       (∀ k < m, 1/100 < ccBalance aprPct payment balance k ∧
          ccBalance aprPct payment balance k * (aprPct / 100 / 12) < payment) →
       ccBalance aprPct payment balance m ≤ 1/100 →
       (simulateCreditCardPayoff balance aprPct payment).monthsToRepay = some m ∧
       (simulateCreditCardPayoff balance aprPct payment).willNotRepay = false) ∧
    ((∀ k, k < 600 → 1/100 < ccBalance aprPct payment balance k ∧
        ccBalance aprPct payment balance k * (aprPct / 100 / 12) < payment) →
     (simulateCreditCardPayoff balance aprPct payment).monthsToRepay = none ∧
     (simulateCreditCardPayoff balance aprPct payment).willNotRepay = true) := by
  have hguard : ¬(balance = 0 ∨ payment = 0) := by
    push_neg
    exact ⟨hb.ne', hp.ne'⟩
  have hsim : simulateCreditCardPayoff balance aprPct payment =
      ccLoop (aprPct / 100 / 12) payment balance 0 0 := by
    rw [simulateCreditCardPayoff, if_neg hguard]
  constructor
  · intro m hm hpre hbal
    have hrun := ccLoop_payoff (aprPct / 100 / 12) payment m balance 0 0
      (by omega) hpre hbal
    rw [hsim, hrun]
    exact ⟨by simp, rfl⟩
  · intro hfull
    rw [hsim]
    exact ccLoop_cap (aprPct / 100 / 12) payment 600 balance 0 0 (by omega) hfull

/-- C4 witness: balance 1, APR 0, payment 1 repays at month 1. -/
theorem claimC4_witness :
    (simulateCreditCardPayoff 1 0 1).monthsToRepay = some 1 ∧
    (simulateCreditCardPayoff 1 0 1).willNotRepay = false :=
  (claimC4_payoff_termination 1 0 1 one_pos one_pos).1 1 (by omega)
    (by
      intro k hk
      interval_cases k
      constructor
      · norm_num [ccBalance]
      · norm_num [ccBalance])
    (by norm_num [ccBalance, Function.iterate_one])

/-- C5: for positive balance and payment, if month `m` (inside the cap) is
the first month whose interest `balance * rate` reaches the payment — all
earlier months having balance above tolerance and sufficient payment — the
simulation terminates immediately with `willNotRepay = true`,
`monthsToRepay` absent, and `totalInterest` equal to the interest
accumulated through month `m` inclusive. -/
theorem claimC5_insufficient_payment (balance aprPct payment : ℚ) (m : ℕ)
    (hb : 0 < balance) (hp : 0 < payment) (hm : m < 600)
    (hpre : ∀ k < m, 1/100 < ccBalance aprPct payment balance k ∧
       ccBalance aprPct payment balance k * (aprPct / 100 / 12) < payment)
    (hbal : 1/100 < ccBalance aprPct payment balance m)
    (hins : payment ≤ ccBalance aprPct payment balance m * (aprPct / 100 / 12)) :
    simulateCreditCardPayoff balance aprPct payment =
      ⟨none, ∑ k in Finset.range (m + 1),
        ccBalance aprPct payment balance k * (aprPct / 100 / 12), true⟩ := by
  have hguard : ¬(balance = 0 ∨ payment = 0) := by
    push_neg
    exact ⟨hb.ne', hp.ne'⟩
  rw [simulateCreditCardPayoff, if_neg hguard,
    ccLoop_insufficient (aprPct / 100 / 12) payment m balance 0 0 (by omega) hpre hbal hins]
  simp only [ccBalance, zero_add]

/-- C5 witness: `simulateCreditCardPayoff(5000, 18, 50)` fails immediately
(month-0 interest is 75 ≥ 50) with total interest exactly 75. -/
theorem claimC5_witness :
    simulateCreditCardPayoff 5000 18 50 = ⟨none, 75, true⟩ := by
  have h := claimC5_insufficient_payment 5000 18 50 0 (by norm_num) (by norm_num)
    (by omega)
    (by intro k hk; exact absurd hk (Nat.not_lt_zero k))
    (by norm_num [ccBalance])
    (by norm_num [ccBalance])
  rw [h]
  norm_num [ccBalance, Finset.sum_range_one]

end IRP
